import Mathlib

/-!
Shallow embedding of the command-line option parser
(`src/CommandLineOptionParser.hpp` and the sibling revisions of the same
header found in the repository).  Strings are Lean `String`s, the bound
destinations of the C++ references are modelled as a store mapping
destination ids to values, and `std::stringstream` extraction of an `int`
is modelled explicitly, including the distinction between the stream
stopping at end-of-input (eofbit) and stopping at a non-numeric character.
-/

/-- Whitespace predicate matching the default-locale `isspace` used by
`std::stringstream` when skipping leading whitespace. -/
def isSpaceChar (c : Char) : Bool :=
  c = ' ' || c = '\t' || c = '\n' || c = '\x0d' || c = '\x0b' || c = '\x0c'

/-- Decimal digit predicate. -/
def isDigitChar (c : Char) : Bool :=
  '0' ≤ c && c ≤ '9'

/-- Numeric value of a decimal digit string, most significant first. -/
def digitsToNat (ds : List Char) : Nat :=
  List.foldl (fun a c => a * 10 + (c.toNat - 48)) 0 ds

/-- Model of `std::stringstream(s) >> value` for an `int` destination:
skip leading whitespace, read an optional sign and a maximal run of
decimal digits.  The first component is the extracted value (`none` when
no digit could be read, i.e. failbit), the second component is the list
of characters left unconsumed in the stream: the stream sets eofbit
exactly when this list is empty. -/
def extractInt (s : List Char) : Option Int × List Char :=
  let s1 := s.dropWhile isSpaceChar
  let signAndRest : Int × List Char :=
    match s1 with
    | '-' :: cs => (-1, cs)
    | '+' :: cs => (1, cs)
    | cs => (1, cs)
  let ds := signAndRest.2.takeWhile isDigitChar
  let rest := signAndRest.2.dropWhile isDigitChar
  if ds.isEmpty then (none, signAndRest.2)
  else (some (signAndRest.1 * (digitsToNat ds : Int)), rest)

/-- Embedding of `StringParsing::parseString<int>` from the revision that
checks `rdstate() != std::ios::eofbit` and throws on failure: the
conversion succeeds exactly when a value was extracted and the whole
token was consumed (stream state is exactly eofbit). -/
def parseStringEof (s : String) : Option Int :=
  match extractInt s.data with
  | (some v, []) => some v
  | _ => none

/-- Embedding of `StringParsing::parseString<int>` from
`src/CommandLineOptionParser.hpp`, which returns
`(bool)(std::stringstream(valueAsString) >> value)`: success is mere
extraction success (failbit clear), trailing characters are ignored.
The returned value is the one written to the destination on success. -/
def parseStringBool (s : String) : Option Int :=
  (extractInt s.data).1

/-- Runtime values stored in the bound destinations. -/
inductive Value where
  | vInt : Int → Value
  | vStr : String → Value
  | vBool : Bool → Value
deriving DecidableEq, Repr

/-- The destination types at which the registration templates are
instantiated in the repository: `int`, `std::optional<int>` (whose
`parseString` specialization parses the underlying `int` and assigns it),
and `std::string` (whose specialization always succeeds and copies the
token verbatim). -/
inductive ConvKind where
  | cInt : ConvKind
  | cOptInt : ConvKind
  | cStr : ConvKind
deriving DecidableEq, Repr

/-- String-to-value conversion dispatched on the registered destination
type, following the `parseString` overloads of the eof-checking revision. -/
def convert : ConvKind → String → Option Value
  | .cInt, s => (parseStringEof s).map Value.vInt
  | .cOptInt, s => (parseStringEof s).map Value.vInt
  | .cStr, s => some (.vStr s)

/-- Store of bound destinations: destination id to current value. -/
abbrev Store := Nat → Value

/-- Write a value through a bound destination. -/
def updateStore (σ : Store) (d : Nat) (v : Value) : Store :=
  fun x => if x = d then v else σ x

/-- The `Parameter` struct of the header: parser function (modelled as a
destination id plus conversion kind), display name and description. -/
structure Parameter where
  dest : Nat
  conv : ConvKind
  name : String
  description : String
deriving DecidableEq, Repr

/-- The `Switch` struct of the header: bound boolean destination and
description. -/
structure Switch where
  dest : Nat
  description : String
deriving DecidableEq, Repr

/-- Model of `std::map::emplace`: insert only when the key is not yet
present; an existing entry is left unchanged. -/
def emplace (m : List (String × α)) (k : String) (v : α) : List (String × α) :=
  if (m.find? (fun p => p.1 == k)).isSome then m else m ++ [(k, v)]

/-- Model of `std::map::find`. -/
def findA (m : List (String × α)) (k : String) : Option α :=
  (m.find? (fun p => p.1 == k)).map (fun p => p.2)

/-- The `CommandLineOptionParser` registries: the two ordered positional
vectors and the two identifier maps. -/
structure Parser where
  mandatoryParameters : List Parameter
  optionalParameters : List Parameter
  parserFunctions : List (String × Parameter)
  flags : List (String × Switch)

/-- A freshly constructed `CommandLineOptionParser`. -/
def emptyParser : Parser := ⟨[], [], [], []⟩

/-- `registerOption`: `m_parserFunctions.emplace(optionName, Parameter{...})`. -/
def registerOption (P : Parser) (dest : Nat) (conv : ConvKind)
    (optionName parameterName description : String) : Parser :=
  { P with parserFunctions :=
      emplace P.parserFunctions optionName ⟨dest, conv, parameterName, description⟩ }

/-- `registerSwitch`: `m_flags.emplace(parameterName, Switch{...})`. -/
def registerSwitch (P : Parser) (dest : Nat)
    (parameterName description : String) : Parser :=
  { P with flags := emplace P.flags parameterName ⟨dest, description⟩ }

/-- `registerUnnamedParameter`: push onto the mandatory or the optional
vector according to the `mandatory` argument. -/
def registerUnnamedParameter (P : Parser) (dest : Nat) (conv : ConvKind)
    (parameterName description : String) (mandatory : Bool) : Parser :=
  if mandatory then
    { P with mandatoryParameters :=
        P.mandatoryParameters ++ [⟨dest, conv, parameterName, description⟩] }
  else
    { P with optionalParameters :=
        P.optionalParameters ++ [⟨dest, conv, parameterName, description⟩] }

/-- The error conditions of `parseCommandLineArguments`, one per distinct
`return false` / `throw std::invalid_argument` site. -/
inductive ParseError where
  | ConversionError : ParseError
  | MissingValue : ParseError
  | UnknownOption : ParseError
  | UnrecognizedPositional : ParseError
  | MissingMandatoryParameter : ParseError
deriving DecidableEq, Repr

/-- The loop state of `parseCommandLineArguments`: the two positional
iterators (modelled as the remaining suffixes of the registered vectors)
and the current contents of the bound destinations. -/
structure LoopState where
  mand : List Parameter
  opt : List Parameter
  store : Store

/-- Result of the token loop: clean completion with a final state, or an
error together with the destinations as written up to the error. -/
inductive LoopResult where
  | ok : LoopState → LoopResult
  | err : ParseError → Store → LoopResult

/-- Effect of `flag = !flag` on a stored value (the store is untyped, so
a non-boolean cell is carried through unchanged; switch destinations are
always boolean). -/
def negate : Value → Value
  | .vBool b => .vBool (!b)
  | v => v

/-- Model of `i->substr(0, 1) == "-"`. -/
def firstCharIsDash (t : String) : Bool :=
  String.mk (t.data.take 1) == "-"

/-- Model of `i->substr(1)`. -/
def identOf (t : String) : String :=
  String.mk (t.data.drop 1)

/-- The token loop of `parseCommandLineArguments` (the `for` over
`++args.begin() .. args.end()`): classify each token, toggling switches,
consuming one lookahead token for named options, and filling mandatory
then optional positionals, stopping at the first error. -/
def runTokens (P : Parser) : List String → LoopState → LoopResult
  | [], st => .ok st
  | t :: rest, st =>
    if firstCharIsDash t then
      match findA P.flags (identOf t) with
      | some sw =>
        runTokens P rest
          { st with store := updateStore st.store sw.dest (negate (st.store sw.dest)) }
      | none =>
        match findA P.parserFunctions (identOf t) with
        | some prm =>
          match rest with
          | [] => .err .MissingValue st.store
          | v :: rest2 =>
            match convert prm.conv v with
            | some val =>
              runTokens P rest2 { st with store := updateStore st.store prm.dest val }
            | none => .err .ConversionError st.store
        | none => .err .UnknownOption st.store
    else
      match st.mand with
      | m :: mrest =>
        match convert m.conv t with
        | some val =>
          runTokens P rest ⟨mrest, st.opt, updateStore st.store m.dest val⟩
        | none => .err .ConversionError st.store
      | [] =>
        match st.opt with
        | o :: orest =>
          match convert o.conv t with
          | some val =>
            runTokens P rest ⟨[], orest, updateStore st.store o.dest val⟩
          | none => .err .ConversionError st.store
        | [] => .err .UnrecognizedPositional st.store

/-- `parseCommandLineArguments(args)`: skip token 0, run the token loop,
then report `MissingMandatoryParameter` when mandatory positionals remain
unfilled.  The returned store is the final contents of the bound
destinations (which the C++ code mutates in place, with no rollback). -/
def parseCommandLineArguments (P : Parser) (args : List String) (σ : Store) :
    Option ParseError × Store :=
  match runTokens P (args.drop 1)
      ⟨P.mandatoryParameters, P.optionalParameters, σ⟩ with
  | .ok st => if st.mand.isEmpty then (none, st.store) else (some .MissingMandatoryParameter, st.store)
  | .err e σ2 => (some e, σ2)

/-- The mandatory-positional fragment of the first usage line:
`for_each` printing `"<" + name + "> "`. -/
def mandChunk : List Parameter → String
  | [] => ""
  | i :: rest => ("<" ++ i.name ++ "> ") ++ mandChunk rest

/-- The optional-positional fragment of the first usage line:
`for_each` printing `"[" + name + "] "`. -/
def optChunk : List Parameter → String
  | [] => ""
  | i :: rest => ("[" ++ i.name ++ "] ") ++ optChunk rest

/-- The first line written by `printUsage` (up to the terminating
`std::endl`), with the executable name already extracted from `argv0`:
`"usage: "`, the executable name, a space, the mandatory positionals as
`<name> `, the optional positionals as `[name] `, then `[options...]`
exactly when at least one named option or switch is registered. -/
def usageFirstLine (P : Parser) (executableName : String) : String :=
  "usage: " ++ executableName ++ " "
    ++ mandChunk P.mandatoryParameters
    ++ optChunk P.optionalParameters
    ++ (if !P.parserFunctions.isEmpty || !P.flags.isEmpty then "[options...]" else "")

/-! ### Elementary lemmas about the token loop -/

lemma runTokens_nil (P : Parser) (st : LoopState) : runTokens P [] st = .ok st := rfl

lemma runTokens_flag (P : Parser) (t : String) (rest : List String) (st : LoopState)
    (sw : Switch) (h1 : firstCharIsDash t = true) (h2 : findA P.flags (identOf t) = some sw) :
    runTokens P (t :: rest) st =
      runTokens P rest ⟨st.mand, st.opt, updateStore st.store sw.dest (negate (st.store sw.dest))⟩ := by
  simp only [runTokens, h1, h2, if_true]

lemma runTokens_option_value (P : Parser) (t v : String) (rest2 : List String)
    (st : LoopState) (prm : Parameter) (val : Value)
    (h1 : firstCharIsDash t = true) (h2 : findA P.flags (identOf t) = none)
    (h3 : findA P.parserFunctions (identOf t) = some prm)
    (h4 : convert prm.conv v = some val) :
    runTokens P (t :: v :: rest2) st =
      runTokens P rest2 ⟨st.mand, st.opt, updateStore st.store prm.dest val⟩ := by
  simp only [runTokens, h1, h2, h3, h4, if_true]

lemma runTokens_option_badValue (P : Parser) (t v : String) (rest2 : List String)
    (st : LoopState) (prm : Parameter)
    (h1 : firstCharIsDash t = true) (h2 : findA P.flags (identOf t) = none)
    (h3 : findA P.parserFunctions (identOf t) = some prm)
    (h4 : convert prm.conv v = none) :
    runTokens P (t :: v :: rest2) st = .err .ConversionError st.store := by
  simp only [runTokens, h1, h2, h3, h4, if_true]

lemma runTokens_option_missingValue (P : Parser) (t : String)
    (st : LoopState) (prm : Parameter)
    (h1 : firstCharIsDash t = true) (h2 : findA P.flags (identOf t) = none)
    (h3 : findA P.parserFunctions (identOf t) = some prm) :
    runTokens P [t] st = .err .MissingValue st.store := by
  simp only [runTokens, h1, h2, h3, if_true]

lemma runTokens_unknown (P : Parser) (t : String) (rest : List String) (st : LoopState)
    (h1 : firstCharIsDash t = true) (h2 : findA P.flags (identOf t) = none)
    (h3 : findA P.parserFunctions (identOf t) = none) :
    runTokens P (t :: rest) st = .err .UnknownOption st.store := by
  simp only [runTokens, h1, h2, h3, if_true]

lemma runTokens_mand (P : Parser) (t : String) (rest : List String) (st : LoopState)
    (m : Parameter) (mrest : List Parameter) (val : Value)
    (h1 : firstCharIsDash t = false) (h2 : st.mand = m :: mrest)
    (h3 : convert m.conv t = some val) :
    runTokens P (t :: rest) st =
      runTokens P rest ⟨mrest, st.opt, updateStore st.store m.dest val⟩ := by
  simp only [runTokens, h1, h2, h3, Bool.false_eq_true, if_false]

lemma runTokens_mand_bad (P : Parser) (t : String) (rest : List String) (st : LoopState)
    (m : Parameter) (mrest : List Parameter)
    (h1 : firstCharIsDash t = false) (h2 : st.mand = m :: mrest)
    (h3 : convert m.conv t = none) :
    runTokens P (t :: rest) st = .err .ConversionError st.store := by
  simp only [runTokens, h1, h2, h3, Bool.false_eq_true, if_false]

lemma runTokens_opt (P : Parser) (t : String) (rest : List String) (st : LoopState)
    (o : Parameter) (orest : List Parameter) (val : Value)
    (h1 : firstCharIsDash t = false) (h2 : st.mand = []) (h3 : st.opt = o :: orest)
    (h4 : convert o.conv t = some val) :
    runTokens P (t :: rest) st =
      runTokens P rest ⟨[], orest, updateStore st.store o.dest val⟩ := by
  simp only [runTokens, h1, h2, h3, h4, Bool.false_eq_true, if_false]

lemma runTokens_opt_bad (P : Parser) (t : String) (rest : List String) (st : LoopState)
    (o : Parameter) (orest : List Parameter)
    (h1 : firstCharIsDash t = false) (h2 : st.mand = []) (h3 : st.opt = o :: orest)
    (h4 : convert o.conv t = none) :
    runTokens P (t :: rest) st = .err .ConversionError st.store := by
  simp only [runTokens, h1, h2, h3, h4, Bool.false_eq_true, if_false]

lemma runTokens_noSlot (P : Parser) (t : String) (rest : List String) (st : LoopState)
    (h1 : firstCharIsDash t = false) (h2 : st.mand = []) (h3 : st.opt = []) :
    runTokens P (t :: rest) st = .err .UnrecognizedPositional st.store := by
  simp only [runTokens, h1, h2, h3, Bool.false_eq_true, if_false]

lemma runTokens_append_ok (P : Parser) (ts2 : List String) (st2 : LoopState) :
    ∀ (ts1 : List String) (st : LoopState), runTokens P ts1 st = .ok st2 →
      runTokens P (ts1 ++ ts2) st = runTokens P ts2 st2 := by
  intro ts1 st
  induction ts1, st using runTokens.induct (P := P) with
  | case1 st =>
    intro h
    rw [runTokens_nil] at h
    cases h
    simp
  | case2 t rest st h1 sw h2 ih =>
    intro h
    rw [runTokens_flag P t rest st sw h1 h2] at h
    rw [List.cons_append, runTokens_flag P t (rest ++ ts2) st sw h1 h2]
    exact ih h
  | case3 t st h1 h2 prm h3 =>
    intro h
    rw [runTokens_option_missingValue P t st prm h1 h2 h3] at h
    cases h
  | case4 t st h1 h2 prm h3 v rest2 val h4 ih =>
    intro h
    rw [runTokens_option_value P t v rest2 st prm val h1 h2 h3 h4] at h
    rw [List.cons_append, List.cons_append,
      runTokens_option_value P t v (rest2 ++ ts2) st prm val h1 h2 h3 h4]
    exact ih h
  | case5 t st h1 h2 prm h3 v rest2 h4 =>
    intro h
    rw [runTokens_option_badValue P t v rest2 st prm h1 h2 h3 h4] at h
    cases h
  | case6 t rest st h1 h2 h3 =>
    intro h
    rw [runTokens_unknown P t rest st h1 h2 h3] at h
    cases h
  | case7 t rest st h1 m mrest h2 val h3 ih =>
    intro h
    replace h1 : firstCharIsDash t = false := by simpa using h1
    rw [runTokens_mand P t rest st m mrest val h1 h2 h3] at h
    rw [List.cons_append, runTokens_mand P t (rest ++ ts2) st m mrest val h1 h2 h3]
    exact ih h
  | case8 t rest st h1 m mrest h2 h3 =>
    intro h
    replace h1 : firstCharIsDash t = false := by simpa using h1
    rw [runTokens_mand_bad P t rest st m mrest h1 h2 h3] at h
    cases h
  | case9 t rest st h1 h2 o orest h3 val h4 ih =>
    intro h
    replace h1 : firstCharIsDash t = false := by simpa using h1
    rw [runTokens_opt P t rest st o orest val h1 h2 h3 h4] at h
    rw [List.cons_append, runTokens_opt P t (rest ++ ts2) st o orest val h1 h2 h3 h4]
    exact ih h
  | case10 t rest st h1 h2 o orest h3 h4 =>
    intro h
    replace h1 : firstCharIsDash t = false := by simpa using h1
    rw [runTokens_opt_bad P t rest st o orest h1 h2 h3 h4] at h
    cases h
  | case11 t rest st h1 h2 h3 =>
    intro h
    replace h1 : firstCharIsDash t = false := by simpa using h1
    rw [runTokens_noSlot P t rest st h1 h2 h3] at h
    cases h

lemma runTokens_err_ne_MMP (P : Parser) :
    ∀ (ts : List String) (st : LoopState) (e : ParseError) (σ2 : Store),
      runTokens P ts st = .err e σ2 → e ≠ .MissingMandatoryParameter := by
  intro ts st
  induction ts, st using runTokens.induct (P := P) with
  | case1 st => intro e σ2 h; rw [runTokens_nil] at h; cases h
  | case2 t rest st h1 sw h2 ih =>
    intro e σ2 h
    rw [runTokens_flag P t rest st sw h1 h2] at h
    exact ih _ _ h
  | case3 t st h1 h2 prm h3 =>
    intro e σ2 h
    rw [runTokens_option_missingValue P t st prm h1 h2 h3] at h
    cases h
    simp
  | case4 t st h1 h2 prm h3 v rest2 val h4 ih =>
    intro e σ2 h
    rw [runTokens_option_value P t v rest2 st prm val h1 h2 h3 h4] at h
    exact ih _ _ h
  | case5 t st h1 h2 prm h3 v rest2 h4 =>
    intro e σ2 h
    rw [runTokens_option_badValue P t v rest2 st prm h1 h2 h3 h4] at h
    cases h
    simp
  | case6 t rest st h1 h2 h3 =>
    intro e σ2 h
    rw [runTokens_unknown P t rest st h1 h2 h3] at h
    cases h
    simp
  | case7 t rest st h1 m mrest h2 val h3 ih =>
    replace h1 : firstCharIsDash t = false := by simpa using h1
    intro e σ2 h
    rw [runTokens_mand P t rest st m mrest val h1 h2 h3] at h
    exact ih _ _ h
  | case8 t rest st h1 m mrest h2 h3 =>
    replace h1 : firstCharIsDash t = false := by simpa using h1
    intro e σ2 h
    rw [runTokens_mand_bad P t rest st m mrest h1 h2 h3] at h
    cases h
    simp
  | case9 t rest st h1 h2 o orest h3 val h4 ih =>
    replace h1 : firstCharIsDash t = false := by simpa using h1
    intro e σ2 h
    rw [runTokens_opt P t rest st o orest val h1 h2 h3 h4] at h
    exact ih _ _ h
  | case10 t rest st h1 h2 o orest h3 h4 =>
    replace h1 : firstCharIsDash t = false := by simpa using h1
    intro e σ2 h
    rw [runTokens_opt_bad P t rest st o orest h1 h2 h3 h4] at h
    cases h
    simp
  | case11 t rest st h1 h2 h3 =>
    replace h1 : firstCharIsDash t = false := by simpa using h1
    intro e σ2 h
    rw [runTokens_noSlot P t rest st h1 h2 h3] at h
    cases h
    simp

lemma runTokens_err_decomp (P : Parser) :
    ∀ (ts : List String) (st : LoopState) (e : ParseError) (σ2 : Store),
      runTokens P ts st = .err e σ2 →
      ∃ ts1 ts2 st1, ts = ts1 ++ ts2 ∧ runTokens P ts1 st = .ok st1 ∧
        st1.store = σ2 ∧ runTokens P ts2 st1 = .err e σ2 := by
  intro ts st
  induction ts, st using runTokens.induct (P := P) with
  | case1 st => intro e σ2 h; rw [runTokens_nil] at h; cases h
  | case2 t rest st h1 sw h2 ih =>
    intro e σ2 h
    rw [runTokens_flag P t rest st sw h1 h2] at h
    obtain ⟨ts1, ts2, st1, hsplit, hok, hst, herr⟩ := ih _ _ h
    refine ⟨t :: ts1, ts2, st1, by simp [hsplit], ?_, hst, herr⟩
    rw [runTokens_flag P t ts1 st sw h1 h2]
    exact hok
  | case3 t st h1 h2 prm h3 =>
    intro e σ2 h
    rw [runTokens_option_missingValue P t st prm h1 h2 h3] at h
    cases h
    exact ⟨[], [t], st, rfl, runTokens_nil P st, rfl,
      runTokens_option_missingValue P t st prm h1 h2 h3⟩
  | case4 t st h1 h2 prm h3 v rest2 val h4 ih =>
    intro e σ2 h
    rw [runTokens_option_value P t v rest2 st prm val h1 h2 h3 h4] at h
    obtain ⟨ts1, ts2, st1, hsplit, hok, hst, herr⟩ := ih _ _ h
    refine ⟨t :: v :: ts1, ts2, st1, by simp [hsplit], ?_, hst, herr⟩
    rw [runTokens_option_value P t v ts1 st prm val h1 h2 h3 h4]
    exact hok
  | case5 t st h1 h2 prm h3 v rest2 h4 =>
    intro e σ2 h
    rw [runTokens_option_badValue P t v rest2 st prm h1 h2 h3 h4] at h
    cases h
    exact ⟨[], t :: v :: rest2, st, rfl, runTokens_nil P st, rfl,
      runTokens_option_badValue P t v rest2 st prm h1 h2 h3 h4⟩
  | case6 t rest st h1 h2 h3 =>
    intro e σ2 h
    rw [runTokens_unknown P t rest st h1 h2 h3] at h
    cases h
    exact ⟨[], t :: rest, st, rfl, runTokens_nil P st, rfl,
      runTokens_unknown P t rest st h1 h2 h3⟩
  | case7 t rest st h1 m mrest h2 val h3 ih =>
    replace h1 : firstCharIsDash t = false := by simpa using h1
    intro e σ2 h
    rw [runTokens_mand P t rest st m mrest val h1 h2 h3] at h
    obtain ⟨ts1, ts2, st1, hsplit, hok, hst, herr⟩ := ih _ _ h
    refine ⟨t :: ts1, ts2, st1, by simp [hsplit], ?_, hst, herr⟩
    rw [runTokens_mand P t ts1 st m mrest val h1 h2 h3]
    exact hok
  | case8 t rest st h1 m mrest h2 h3 =>
    replace h1 : firstCharIsDash t = false := by simpa using h1
    intro e σ2 h
    rw [runTokens_mand_bad P t rest st m mrest h1 h2 h3] at h
    cases h
    exact ⟨[], t :: rest, st, rfl, runTokens_nil P st, rfl,
      runTokens_mand_bad P t rest st m mrest h1 h2 h3⟩
  | case9 t rest st h1 h2 o orest h3 val h4 ih =>
    replace h1 : firstCharIsDash t = false := by simpa using h1
    intro e σ2 h
    rw [runTokens_opt P t rest st o orest val h1 h2 h3 h4] at h
    obtain ⟨ts1, ts2, st1, hsplit, hok, hst, herr⟩ := ih _ _ h
    refine ⟨t :: ts1, ts2, st1, by simp [hsplit], ?_, hst, herr⟩
    rw [runTokens_opt P t ts1 st o orest val h1 h2 h3 h4]
    exact hok
  | case10 t rest st h1 h2 o orest h3 h4 =>
    replace h1 : firstCharIsDash t = false := by simpa using h1
    intro e σ2 h
    rw [runTokens_opt_bad P t rest st o orest h1 h2 h3 h4] at h
    cases h
    exact ⟨[], t :: rest, st, rfl, runTokens_nil P st, rfl,
      runTokens_opt_bad P t rest st o orest h1 h2 h3 h4⟩
  | case11 t rest st h1 h2 h3 =>
    replace h1 : firstCharIsDash t = false := by simpa using h1
    intro e σ2 h
    rw [runTokens_noSlot P t rest st h1 h2 h3] at h
    cases h
    exact ⟨[], t :: rest, st, rfl, runTokens_nil P st, rfl,
      runTokens_noSlot P t rest st h1 h2 h3⟩

/-! ### Lemmas about the identifier maps -/

lemma firstCharIsDash_mk_dash (l : List Char) :
    firstCharIsDash (String.mk ('-' :: l)) = true := by
  simp [firstCharIsDash]

lemma identOf_mk_dash (x : String) : identOf (String.mk ('-' :: x.data)) = x := rfl

lemma findA_emplace_absent {α : Type} (m : List (String × α)) (k : String) (v : α)
    (h : findA m k = none) : findA (emplace m k v) k = some v := by
  have hf : m.find? (fun p => p.1 == k) = none := by
    simpa [findA] using h
  unfold emplace
  rw [if_neg (by simp [hf])]
  simp [findA, List.find?_append, hf]

lemma emplace_present {α : Type} (m : List (String × α)) (k : String) (v : α)
    (h : (findA m k).isSome = true) : emplace m k v = m := by
  have hf : (m.find? (fun p => p.1 == k)).isSome = true := by
    simpa [findA] using h
  unfold emplace
  rw [if_pos hf]

/-! ### Switch toggling -/

lemma runTokens_toggle (P : Parser) (x : String) (sw : Switch)
    (hfind : findA P.flags x = some sw) :
    ∀ (n : Nat) (mand opt : List Parameter) (σ : Store) (b : Bool),
      σ sw.dest = .vBool b →
      ∃ σ2, runTokens P (List.replicate n (String.mk ('-' :: x.data))) ⟨mand, opt, σ⟩ =
              .ok ⟨mand, opt, σ2⟩ ∧
            σ2 sw.dest = .vBool (if n % 2 = 0 then b else !b) := by
  intro n
  induction n with
  | zero =>
    intro mand opt σ b hb
    exact ⟨σ, runTokens_nil P _, by simpa using hb⟩
  | succ n ih =>
    intro mand opt σ b hb
    rw [List.replicate_succ]
    rw [runTokens_flag P _ _ ⟨mand, opt, σ⟩ sw (firstCharIsDash_mk_dash x.data)
      (by rw [identOf_mk_dash]; exact hfind)]
    have hb2 : updateStore σ sw.dest (negate (σ sw.dest)) sw.dest = .vBool (!b) := by
      simp [updateStore, hb, negate]
    obtain ⟨σ2, hrun, hval⟩ := ih mand opt _ (!b) hb2
    refine ⟨σ2, hrun, ?_⟩
    rw [hval]
    rcases Nat.mod_two_eq_zero_or_one n with hn | hn
    · have h2 : (n + 1) % 2 = 1 := by omega
      rw [hn, h2]
      simp
    · have h2 : (n + 1) % 2 = 0 := by omega
      rw [hn, h2]
      simp

/-! ### Positional registration order -/

/-- A single call to `registerUnnamedParameter`, as data, so that arbitrary
interleavings of mandatory and optional registrations can be quantified over. -/
structure Reg where
  dest : Nat
  conv : ConvKind
  name : String
  description : String
  mandatory : Bool
deriving DecidableEq, Repr

/-- Perform one registration request. -/
def applyReg (P : Parser) (r : Reg) : Parser :=
  registerUnnamedParameter P r.dest r.conv r.name r.description r.mandatory

/-- Perform a sequence of `registerUnnamedParameter` calls in order. -/
def registerAll (P : Parser) (rs : List Reg) : Parser :=
  rs.foldl applyReg P

/-- The positional parameter a registration request creates. -/
def Reg.toParameter (r : Reg) : Parameter :=
  ⟨r.dest, r.conv, r.name, r.description⟩

lemma registerAll_spec : ∀ (rs : List Reg) (P : Parser),
    (registerAll P rs).mandatoryParameters =
      P.mandatoryParameters ++ (rs.filter (fun r => r.mandatory)).map Reg.toParameter ∧
    (registerAll P rs).optionalParameters =
      P.optionalParameters ++ (rs.filter (fun r => !r.mandatory)).map Reg.toParameter ∧
    (registerAll P rs).parserFunctions = P.parserFunctions ∧
    (registerAll P rs).flags = P.flags := by
  intro rs
  induction rs with
  | nil => intro P; simp [registerAll]
  | cons r rs ih =>
    intro P
    have hfold : registerAll P (r :: rs) = registerAll (applyReg P r) rs := rfl
    obtain ⟨ih1, ih2, ih3, ih4⟩ := ih (applyReg P r)
    rw [hfold]
    by_cases hr : r.mandatory
    · refine ⟨?_, ?_, ?_, ?_⟩
      · rw [ih1]
        simp [applyReg, registerUnnamedParameter, hr, Reg.toParameter]
      · rw [ih2]
        simp [applyReg, registerUnnamedParameter, hr]
      · rw [ih3]; simp [applyReg, registerUnnamedParameter, hr]
      · rw [ih4]; simp [applyReg, registerUnnamedParameter, hr]
    · have hr2 : r.mandatory = false := by simpa using hr
      refine ⟨?_, ?_, ?_, ?_⟩
      · rw [ih1]
        simp [applyReg, registerUnnamedParameter, hr2]
      · rw [ih2]
        simp [applyReg, registerUnnamedParameter, hr2, Reg.toParameter]
      · rw [ih3]; simp [applyReg, registerUnnamedParameter, hr2]
      · rw [ih4]; simp [applyReg, registerUnnamedParameter, hr2]

/-- The sequential assignment of tokens to positional parameters, in order,
each converted as a string copy. -/
def assignStr : List Parameter → List String → Store → Store
  | m :: ms, t :: ts, σ => assignStr ms ts (updateStore σ m.dest (.vStr t))
  | _, _, σ => σ

lemma assignStr_nil_left (ts : List String) (σ : Store) : assignStr [] ts σ = σ := by
  cases ts <;> rfl

lemma assignStr_nil_right (ps : List Parameter) (σ : Store) : assignStr ps [] σ = σ := by
  cases ps <;> rfl

lemma assignStr_notMem : ∀ (ps : List Parameter) (ts : List String) (σ : Store) (d : Nat),
    d ∉ ps.map Parameter.dest → assignStr ps ts σ d = σ d := by
  intro ps
  induction ps with
  | nil => intro ts σ d _; rw [assignStr_nil_left]
  | cons p ps ih =>
    intro ts σ d hd
    cases ts with
    | nil => rw [assignStr_nil_right]
    | cons t ts =>
      have hd1 : d ≠ p.dest := by
        intro hcontra
        exact hd (by simp [hcontra])
      have hd2 : d ∉ ps.map Parameter.dest := by
        intro hcontra
        exact hd (by simp [hcontra])
      rw [show assignStr (p :: ps) (t :: ts) σ =
            assignStr ps ts (updateStore σ p.dest (.vStr t)) from rfl]
      rw [ih ts _ d hd2]
      simp [updateStore, hd1]

lemma assignStr_get : ∀ (ps : List Parameter) (ts : List String) (σ : Store),
    ps.length = ts.length → (ps.map Parameter.dest).Nodup →
    ∀ i (h1 : i < ps.length) (h2 : i < ts.length),
      assignStr ps ts σ ((ps.get ⟨i, h1⟩).dest) = .vStr (ts.get ⟨i, h2⟩) := by
  intro ps
  induction ps with
  | nil => intro ts σ _ _ i h1; exact absurd h1 (by simp)
  | cons p ps ih =>
    intro ts σ hlen hnd i h1 h2
    cases ts with
    | nil => exact absurd hlen (by simp)
    | cons t ts =>
      rw [show assignStr (p :: ps) (t :: ts) σ =
            assignStr ps ts (updateStore σ p.dest (.vStr t)) from rfl]
      have hpair : (∀ x ∈ ps, ¬x.dest = p.dest) ∧ (ps.map Parameter.dest).Nodup := by
        simpa using hnd
      cases i with
      | zero =>
        have hmem : p.dest ∉ ps.map Parameter.dest := by
          intro hcontra
          obtain ⟨x, hx, hxd⟩ := List.mem_map.mp hcontra
          exact hpair.1 x hx hxd
        rw [show ((p :: ps).get ⟨0, h1⟩) = p from rfl]
        rw [assignStr_notMem ps ts _ p.dest hmem]
        simp [updateStore]
      | succ i =>
        have hnd2 : (ps.map Parameter.dest).Nodup := hpair.2
        have hlen2 : ps.length = ts.length := by simpa using hlen
        exact ih ts _ hlen2 hnd2 i (by simpa using h1) (by simpa using h2)

lemma convert_cStr (k : ConvKind) (t : String) (h : k = .cStr) :
    convert k t = some (.vStr t) := by
  subst h; rfl

lemma runTokens_noDash (P : Parser) :
    ∀ (ts : List String) (mand opt : List Parameter) (σ : Store) (r : Nat),
      (∀ t ∈ ts, firstCharIsDash t = false) →
      (∀ m ∈ mand, m.conv = .cStr) →
      (∀ o ∈ opt, o.conv = .cStr) →
      ts.length = mand.length + r →
      r ≤ opt.length →
      runTokens P ts ⟨mand, opt, σ⟩ =
        .ok ⟨[], opt.drop r, assignStr (mand ++ opt.take r) ts σ⟩ := by
  intro ts
  induction ts with
  | nil =>
    intro mand opt σ r _ _ _ hlen hr
    have hm : mand = [] := by
      have : mand.length = 0 := by simp at hlen; omega
      exact List.length_eq_zero.mp this
    have hr0 : r = 0 := by simp [hm] at hlen; omega
    subst hm; subst hr0
    rw [runTokens_nil]
    simp [assignStr_nil_right]
  | cons t ts ih =>
    intro mand opt σ r hdash hm ho hlen hr
    have hdt : firstCharIsDash t = false := hdash t (by simp)
    have hdts : ∀ u ∈ ts, firstCharIsDash u = false := fun u hu => hdash u (by simp [hu])
    cases mand with
    | cons m mrest =>
      have hcm : convert m.conv t = some (.vStr t) := convert_cStr _ _ (hm m (by simp))
      rw [runTokens_mand P t ts ⟨m :: mrest, opt, σ⟩ m mrest (.vStr t) hdt rfl hcm]
      have hlen2 : ts.length = mrest.length + r := by simp at hlen; omega
      rw [ih mrest opt _ r hdts (fun u hu => hm u (by simp [hu])) ho hlen2 hr]
      rfl
    | nil =>
      have hrpos : r = ts.length + 1 := by simp at hlen; omega
      cases opt with
      | nil => exact absurd hr (by simp [hrpos])
      | cons o orest =>
        have hco : convert o.conv t = some (.vStr t) := convert_cStr _ _ (ho o (by simp))
        rw [runTokens_opt P t ts ⟨[], o :: orest, σ⟩ o orest (.vStr t) hdt rfl rfl hco]
        have hr2 : ts.length ≤ orest.length := by simp at hr; omega
        rw [ih [] orest _ ts.length hdts (by simp)
          (fun u hu => ho u (by simp [hu])) (by simp) hr2]
        subst hrpos
        rw [show (o :: orest).drop (ts.length + 1) = orest.drop ts.length from rfl]
        rw [show (o :: orest).take (ts.length + 1) = o :: orest.take ts.length from rfl]
        rfl

/-! ### Usage line structure -/

lemma endsSpace_append_mandChunk : ∀ (ps : List Parameter) (s : String),
    (∃ l, s.data = l ++ [' ']) → ∃ l, (s ++ mandChunk ps).data = l ++ [' '] := by
  intro ps
  induction ps with
  | nil =>
    intro s hs
    simpa [mandChunk, String.data_append] using hs
  | cons i ps ih =>
    intro s hs
    have hassoc : s ++ mandChunk (i :: ps) = (s ++ ("<" ++ i.name ++ "> ")) ++ mandChunk ps := by
      rw [show mandChunk (i :: ps) = ("<" ++ i.name ++ "> ") ++ mandChunk ps from rfl]
      simp [String.append_assoc]
    rw [hassoc]
    apply ih
    refine ⟨s.data ++ ('<' :: (i.name.data ++ ['>'])), ?_⟩
    have h1 : ("<" : String).data = ['<'] := rfl
    have h2 : ("> " : String).data = ['>', ' '] := rfl
    simp [String.data_append, h1, h2]

lemma endsSpace_append_optChunk : ∀ (ps : List Parameter) (s : String),
    (∃ l, s.data = l ++ [' ']) → ∃ l, (s ++ optChunk ps).data = l ++ [' '] := by
  intro ps
  induction ps with
  | nil =>
    intro s hs
    simpa [optChunk, String.data_append] using hs
  | cons i ps ih =>
    intro s hs
    have hassoc : s ++ optChunk (i :: ps) = (s ++ ("[" ++ i.name ++ "] ")) ++ optChunk ps := by
      rw [show optChunk (i :: ps) = ("[" ++ i.name ++ "] ") ++ optChunk ps from rfl]
      simp [String.append_assoc]
    rw [hassoc]
    apply ih
    refine ⟨s.data ++ ('[' :: (i.name.data ++ [']'])), ?_⟩
    have h1 : ("[" : String).data = ['['] := rfl
    have h2 : ("] " : String).data = [']', ' '] := rfl
    simp [String.data_append, h1, h2]

lemma usageBase_endsSpace (P : Parser) (name : String) :
    ∃ l, ("usage: " ++ name ++ " " ++ mandChunk P.mandatoryParameters
          ++ optChunk P.optionalParameters).data = l ++ [' '] := by
  apply endsSpace_append_optChunk
  apply endsSpace_append_mandChunk
  refine ⟨("usage: " : String).data ++ name.data, ?_⟩
  have h1 : (" " : String).data = [' '] := rfl
  simp [String.data_append, h1]

/-! ### From the token loop to the parse entry point -/

lemma parse_of_err (P : Parser) (args : List String) (σ : Store) (e : ParseError) (σ2 : Store)
    (h : runTokens P (args.drop 1) ⟨P.mandatoryParameters, P.optionalParameters, σ⟩ = .err e σ2) :
    parseCommandLineArguments P args σ = (some e, σ2) := by
  unfold parseCommandLineArguments
  rw [h]

lemma parse_of_ok (P : Parser) (args : List String) (σ : Store) (st : LoopState)
    (h : runTokens P (args.drop 1) ⟨P.mandatoryParameters, P.optionalParameters, σ⟩ = .ok st) :
    parseCommandLineArguments P args σ =
      (if st.mand.isEmpty then none else some .MissingMandatoryParameter, st.store) := by
  unfold parseCommandLineArguments
  rw [h]
  by_cases hI : st.mand.isEmpty <;> simp [hI]

/-! ### Concrete registration states used in the claim instances -/

/-- All destinations initially false. -/
def store0 : Store := fun _ => .vBool false

/-- The identifier `x` registered both as a named option and as a switch. -/
def Pboth : Parser := registerSwitch (registerOption emptyParser 0 .cInt "x" "n" "d") 1 "x" "d"

/-- One mandatory positional of numeric type, nothing else. -/
def Pm95 : Parser := registerUnnamedParameter emptyParser 0 .cInt "num" "d" true

/-- An optional positional registered before a mandatory one. -/
def PoptBeforeMand : Parser :=
  registerAll emptyParser [⟨0, .cStr, "o", "d", false⟩, ⟨1, .cStr, "m", "d", true⟩]

/-- The option identifier `x` registered twice with different destinations. -/
def PdupOpt : Parser :=
  registerOption (registerOption emptyParser 0 .cInt "x" "n" "d") 1 .cInt "x" "n2" "d2"

/-- The switch identifier `s` registered twice with different destinations. -/
def PdupSw : Parser := registerSwitch (registerSwitch emptyParser 0 "s" "d") 1 "s" "d2"

/-- Two mandatory string positionals, in registration order. -/
def Ptwo : Parser :=
  registerAll emptyParser [⟨0, .cStr, "m1", "d", true⟩, ⟨1, .cStr, "m2", "d", true⟩]

/-- A switch `v`, nothing else. -/
def Psw : Parser := registerSwitch emptyParser 0 "v" "verbose"

/-- A named int option `n`, nothing else. -/
def Pn : Parser := registerOption emptyParser 0 .cInt "n" "count" "d"

/-! ### Claim C1 -/

/-- C1 counterexample: in the boolean-returning revision
(`src/CommandLineOptionParser.hpp`, `StringParsing::parseString`), the
conversion of the token `"42abc"` into an `int` destination counts as
success (the extracted value 42 is written) although the characters
`"abc"` remain unconsumed, contradicting the claim that conversion counts
as success only if the entire token is consumed. -/
theorem C1_counterexample_trailing_garbage :
    parseStringBool "42abc" = some 42 ∧ (extractInt "42abc".data).2 = ['a', 'b', 'c'] := by
  constructor <;> rfl

/-- C1 amended: in the eofbit-checking revision the conversion succeeds
only when the whole token is consumed — `"42abc"` and `"abc"` both fail
and `"42"` succeeds — and this extends to every registered non-string
destination type; string destinations copy the token verbatim.  The
boolean-returning revision instead accepts `"42abc"`. -/
theorem C1_full_consumption :
    (∀ (s : String) (v : Int), parseStringEof s = some v → (extractInt s.data).2 = []) ∧
    (∀ (k : ConvKind) (s : String), k ≠ ConvKind.cStr → (convert k s).isSome = true →
      (extractInt s.data).2 = []) ∧
    parseStringEof "42abc" = none ∧
    parseStringEof "abc" = none ∧
    parseStringEof "42" = some 42 ∧
    parseStringBool "42abc" = some 42 ∧
    (∀ s : String, convert ConvKind.cStr s = some (.vStr s)) := by
  have key : ∀ (s : String) (v : Int), parseStringEof s = some v → (extractInt s.data).2 = [] := by
    intro s v h
    unfold parseStringEof at h
    rcases hpair : extractInt s.data with ⟨ov, rest⟩
    rw [hpair] at h
    rcases ov with _ | v2
    · simp at h
    · rcases rest with _ | ⟨c, cs⟩
      · rfl
      · simp at h
  refine ⟨key, ?_, rfl, rfl, rfl, rfl, fun s => rfl⟩
  intro k s hk hsome
  rcases k with _ | _ | _
  · have : (parseStringEof s).isSome = true := by
      simpa [convert] using hsome
    obtain ⟨v, hv⟩ := Option.isSome_iff_exists.mp this
    exact key s v hv
  · have : (parseStringEof s).isSome = true := by
      simpa [convert] using hsome
    obtain ⟨v, hv⟩ := Option.isSome_iff_exists.mp this
    exact key s v hv
  · exact absurd rfl hk

/-- C1 witness: at the concrete token `"42"` the conversion succeeds and
the whole token was consumed. -/
theorem C1_witness : parseStringEof "42" = some 42 ∧ (extractInt "42".data).2 = [] :=
  ⟨rfl, C1_full_consumption.1 "42" 42 rfl⟩

/-! ### Claim C2 -/

/-- C2 counterexample: registering the option identifier `x` (and the
switch identifier `s`) twice leaves the FIRST registration in the map:
`std::map::emplace` does not overwrite an existing key, so the claim that
the last registration wins is false. -/
theorem C2_counterexample_last_does_not_win :
    findA PdupOpt.parserFunctions "x" = some ⟨0, .cInt, "n", "d"⟩ ∧
    ¬findA PdupOpt.parserFunctions "x" = some ⟨1, .cInt, "n2", "d2"⟩ ∧
    findA PdupSw.flags "s" = some ⟨0, "d"⟩ ∧
    ¬findA PdupSw.flags "s" = some ⟨1, "d2"⟩ := by
  refine ⟨rfl, by decide, rfl, by decide⟩

/-- C2 amended: both maps hold unique keys, and on collision the FIRST
registration of an identifier stays in effect, for options and for
switches alike (`emplace` leaves an existing entry unchanged). -/
theorem C2_first_registration_wins :
    (∀ (P : Parser) (x pn1 ds1 pn2 ds2 : String) (d1 d2 : Nat) (c1 c2 : ConvKind),
      findA P.parserFunctions x = none →
      findA (registerOption (registerOption P d1 c1 x pn1 ds1) d2 c2 x pn2 ds2).parserFunctions x
        = some ⟨d1, c1, pn1, ds1⟩) ∧
    (∀ (P : Parser) (x ds1 ds2 : String) (d1 d2 : Nat),
      findA P.flags x = none →
      findA (registerSwitch (registerSwitch P d1 x ds1) d2 x ds2).flags x = some ⟨d1, ds1⟩) := by
  constructor
  · intro P x pn1 ds1 pn2 ds2 d1 d2 c1 c2 h
    have h1 : findA (emplace P.parserFunctions x ⟨d1, c1, pn1, ds1⟩) x
        = some ⟨d1, c1, pn1, ds1⟩ := findA_emplace_absent _ _ _ h
    have h2 := emplace_present (emplace P.parserFunctions x ⟨d1, c1, pn1, ds1⟩) x
      (⟨d2, c2, pn2, ds2⟩ : Parameter) (by rw [h1]; rfl)
    show findA (emplace (emplace P.parserFunctions x _) x _) x = _
    rw [h2, h1]
  · intro P x ds1 ds2 d1 d2 h
    have h1 : findA (emplace P.flags x ⟨d1, ds1⟩) x = some ⟨d1, ds1⟩ :=
      findA_emplace_absent _ _ _ h
    have h2 := emplace_present (emplace P.flags x ⟨d1, ds1⟩) x (⟨d2, ds2⟩ : Switch)
      (by rw [h1]; rfl)
    show findA (emplace (emplace P.flags x _) x _) x = _
    rw [h2, h1]

/-- C2 witness: registering `x` twice on a fresh parser keeps the first
bound parameter. -/
theorem C2_witness :
    findA (registerOption (registerOption emptyParser 0 .cInt "x" "n" "d")
      1 .cInt "x" "n2" "d2").parserFunctions "x" = some ⟨0, .cInt, "n", "d"⟩ :=
  C2_first_registration_wins.1 emptyParser "x" "n" "d" "n2" "d2" 0 1 .cInt .cInt rfl

/-! ### Claim C3 -/

/-- C3: positional matching order.  First, for every interleaving of
`registerUnnamedParameter` calls the mandatory and the optional vectors
each hold exactly the requests of their group in registration order.
Second, parsing non-option tokens against string positionals succeeds and
assigns the first tokens to the mandatory positionals and the following
ones to the optional positionals, each group in registration order (the
i-th consumed token lands in the destination of the i-th slot of
mandatory-then-optional).  Third, concretely, an optional positional
registered before a mandatory one is still matched after it. -/
theorem C3_positional_matching_order :
    (∀ (rs : List Reg) (P0 : Parser),
      (registerAll P0 rs).mandatoryParameters =
        P0.mandatoryParameters ++ (rs.filter (fun r => r.mandatory)).map Reg.toParameter ∧
      (registerAll P0 rs).optionalParameters =
        P0.optionalParameters ++ (rs.filter (fun r => !r.mandatory)).map Reg.toParameter) ∧
    (∀ (P : Parser) (ts : List String) (r : Nat) (σ : Store) (prog : String),
      (∀ t ∈ ts, firstCharIsDash t = false) →
      (∀ m ∈ P.mandatoryParameters, m.conv = .cStr) →
      (∀ o ∈ P.optionalParameters, o.conv = .cStr) →
      ts.length = P.mandatoryParameters.length + r →
      r ≤ P.optionalParameters.length →
      ((parseCommandLineArguments P (prog :: ts) σ).1 = none ∧
        (((P.mandatoryParameters ++ P.optionalParameters.take r).map Parameter.dest).Nodup →
          ∀ i (h1 : i < (P.mandatoryParameters ++ P.optionalParameters.take r).length)
            (h2 : i < ts.length),
            (parseCommandLineArguments P (prog :: ts) σ).2
              (((P.mandatoryParameters ++ P.optionalParameters.take r).get ⟨i, h1⟩).dest)
              = .vStr (ts.get ⟨i, h2⟩)))) ∧
    ((parseCommandLineArguments PoptBeforeMand ["prog", "a", "b"] store0).1 = none ∧
     (parseCommandLineArguments PoptBeforeMand ["prog", "a", "b"] store0).2 1 = .vStr "a" ∧
     (parseCommandLineArguments PoptBeforeMand ["prog", "a", "b"] store0).2 0 = .vStr "b") := by
  refine ⟨fun rs P0 => ⟨(registerAll_spec rs P0).1, (registerAll_spec rs P0).2.1⟩, ?_,
    rfl, rfl, rfl⟩
  intro P ts r σ prog hdash hm ho hlen hr
  have hrun : runTokens P ((prog :: ts).drop 1)
      ⟨P.mandatoryParameters, P.optionalParameters, σ⟩ =
      .ok ⟨[], P.optionalParameters.drop r,
           assignStr (P.mandatoryParameters ++ P.optionalParameters.take r) ts σ⟩ :=
    runTokens_noDash P ts P.mandatoryParameters P.optionalParameters σ r hdash hm ho hlen hr
  have hp := parse_of_ok P (prog :: ts) σ _ hrun
  constructor
  · rw [hp]
    rfl
  · intro hnd i h1 h2
    rw [hp]
    show assignStr (P.mandatoryParameters ++ P.optionalParameters.take r) ts σ _ = _
    have hlen2 : (P.mandatoryParameters ++ P.optionalParameters.take r).length = ts.length := by
      simp [List.length_take]
      omega
    exact assignStr_get _ ts σ hlen2 hnd i h1 h2

/-- C3 witness: two mandatory string positionals registered in order
receive the two tokens in order. -/
theorem C3_witness :
    (parseCommandLineArguments Ptwo ["prog", "x", "y"] store0).1 = none ∧
    (parseCommandLineArguments Ptwo ["prog", "x", "y"] store0).2 0 = .vStr "x" ∧
    (parseCommandLineArguments Ptwo ["prog", "x", "y"] store0).2 1 = .vStr "y" := by
  have h := C3_positional_matching_order.2.1 Ptwo ["x", "y"] 0 store0 "prog"
    (by decide) (by decide) (by decide) (by decide) (by decide)
  refine ⟨h.1, ?_, ?_⟩
  · exact h.2 (by decide) 0 (by decide) (by decide)
  · exact h.2 (by decide) 1 (by decide) (by decide)

/-! ### Claim C4 -/

/-- C4: each occurrence of a registered switch token negates the bound
boolean destination, and after n occurrences the destination equals its
initial value when n is even and its negation when n is odd. -/
theorem C4_switch_toggle_parity :
    (∀ (P : Parser) (x : String) (sw : Switch) (rest : List String) (st : LoopState) (b : Bool),
      findA P.flags x = some sw → st.store sw.dest = .vBool b →
      runTokens P (String.mk ('-' :: x.data) :: rest) st =
        runTokens P rest ⟨st.mand, st.opt, updateStore st.store sw.dest (.vBool (!b))⟩) ∧
    (∀ (P : Parser) (x prog : String) (sw : Switch) (n : Nat) (b : Bool) (σ : Store),
      findA P.flags x = some sw → σ sw.dest = .vBool b →
      (parseCommandLineArguments P (prog :: List.replicate n (String.mk ('-' :: x.data))) σ).2
        sw.dest = .vBool (if n % 2 = 0 then b else !b)) := by
  constructor
  · intro P x sw rest st b hfind hb
    rw [runTokens_flag P _ rest st sw (firstCharIsDash_mk_dash x.data)
      (by rw [identOf_mk_dash]; exact hfind)]
    rw [hb]
    rfl
  · intro P x prog sw n b σ hfind hb
    obtain ⟨σ2, hrun, hval⟩ := runTokens_toggle P x sw hfind n
      P.mandatoryParameters P.optionalParameters σ b hb
    have hp := parse_of_ok P (prog :: List.replicate n (String.mk ('-' :: x.data))) σ _ hrun
    rw [hp]
    exact hval

/-- C4 witness: three occurrences of `-v` flip an initially false switch
to true. -/
theorem C4_witness :
    (parseCommandLineArguments Psw ["prog", "-v", "-v", "-v"] store0).2 0 = .vBool true := by
  have h := C4_switch_toggle_parity.2 Psw "v" "prog" ⟨0, "verbose"⟩ 3 false store0 rfl rfl
  simpa using h

/-! ### Claim C5 -/

/-- C5 counterexample: `x` is a registered option identifier, the input's
last token is `-x`, yet the parse succeeds, because `x` is also a
registered switch and switches are looked up first.  The claim as stated
(for EVERY registered option identifier) is therefore false. -/
theorem C5_counterexample_option_shadowed_by_switch :
    findA Pboth.parserFunctions "x" = some ⟨0, .cInt, "n", "d"⟩ ∧
    (parseCommandLineArguments Pboth ["prog", "-x"] store0).1 = none := by
  exact ⟨rfl, rfl⟩

/-- C5 amended: for every registered option identifier `x` that is NOT
also registered as a switch, if the tokens before the final `-x` are
consumed without error, the parse fails with `MissingValue` and the
destinations keep the values written so far. -/
theorem C5_missing_value :
    ∀ (P : Parser) (x prog : String) (prm : Parameter) (args : List String) (σ : Store)
      (st1 : LoopState),
      findA P.flags x = none →
      findA P.parserFunctions x = some prm →
      runTokens P args ⟨P.mandatoryParameters, P.optionalParameters, σ⟩ = .ok st1 →
      parseCommandLineArguments P (prog :: (args ++ [String.mk ('-' :: x.data)])) σ
        = (some .MissingValue, st1.store) := by
  intro P x prog prm args σ st1 hfl hfn hrun
  have hstep : runTokens P [String.mk ('-' :: x.data)] st1 = .err .MissingValue st1.store :=
    runTokens_option_missingValue P _ st1 prm (firstCharIsDash_mk_dash x.data)
      (by rw [identOf_mk_dash]; exact hfl) (by rw [identOf_mk_dash]; exact hfn)
  have happ := runTokens_append_ok P [String.mk ('-' :: x.data)] st1 args _ hrun
  exact parse_of_err P _ σ .MissingValue st1.store (happ.trans hstep)

/-- C5 witness: with only the int option `n` registered, `prog -n` fails
with `MissingValue` and leaves the store untouched. -/
theorem C5_witness :
    parseCommandLineArguments Pn ["prog", "-n"] store0 = (some .MissingValue, store0) := by
  have h := C5_missing_value Pn "n" "prog" ⟨0, .cInt, "count", "d"⟩ [] store0
    ⟨[], [], store0⟩ rfl rfl rfl
  exact h

/-! ### Claim C6 -/

/-- C6: the parse fails with `MissingMandatoryParameter` exactly when the
token loop completes without any per-token error but leaves at least one
registered mandatory positional unfilled, and it succeeds exactly when
the loop completes with every mandatory positional filled. -/
theorem C6_missing_mandatory_iff :
    ∀ (P : Parser) (args : List String) (σ : Store),
      ((parseCommandLineArguments P args σ).1 = some .MissingMandatoryParameter ↔
        ∃ st, runTokens P (args.drop 1)
            ⟨P.mandatoryParameters, P.optionalParameters, σ⟩ = .ok st ∧ st.mand ≠ []) ∧
      ((parseCommandLineArguments P args σ).1 = none ↔
        ∃ st, runTokens P (args.drop 1)
            ⟨P.mandatoryParameters, P.optionalParameters, σ⟩ = .ok st ∧ st.mand = []) := by
  intro P args σ
  cases hres : runTokens P (args.drop 1) ⟨P.mandatoryParameters, P.optionalParameters, σ⟩ with
  | ok st =>
    have hp := parse_of_ok P args σ st hres
    by_cases hI : st.mand.isEmpty
    · have hnil : st.mand = [] := List.isEmpty_iff.mp hI
      constructor
      · constructor
        · intro h
          rw [hp, if_pos hI] at h
          cases h
        · rintro ⟨st2, hok, hne⟩
          cases hok
          exact absurd hnil hne
      · constructor
        · intro _
          exact ⟨st, rfl, hnil⟩
        · intro _
          rw [hp, if_pos hI]
    · have hne : st.mand ≠ [] := by
        intro hcontra
        exact hI (List.isEmpty_iff.mpr hcontra)
      constructor
      · constructor
        · intro _
          exact ⟨st, rfl, hne⟩
        · intro _
          rw [hp, if_neg hI]
      · constructor
        · intro h
          rw [hp, if_neg hI] at h
          cases h
        · rintro ⟨st2, hok, hnil⟩
          cases hok
          exact absurd hnil hne
  | err e σ2 =>
    have hp := parse_of_err P args σ e σ2 hres
    have hne := runTokens_err_ne_MMP P (args.drop 1) _ e σ2 hres
    constructor
    · constructor
      · intro h
        rw [hp] at h
        exact absurd (by injection h) hne
      · rintro ⟨st2, hok, _⟩
        cases hok
    · constructor
      · intro h
        rw [hp] at h
        cases h
      · rintro ⟨st2, hok, _⟩
        cases hok

/-- C6 witness: with one mandatory positional registered and no tokens,
the parse fails with `MissingMandatoryParameter`. -/
theorem C6_witness :
    (parseCommandLineArguments Pm95 ["prog"] store0).1 = some .MissingMandatoryParameter :=
  (C6_missing_mandatory_iff Pm95 ["prog"] store0).1.mpr
    ⟨⟨[⟨0, .cInt, "num", "d"⟩], [], store0⟩, rfl, by decide⟩

/-! ### Claim C7 -/

/-- C7: a token starting with the dash prefix is always handled as a
named option or switch token — it either produces an error leaving the
store as it was, or hands control back to the loop with the positional
slot lists untouched — and when the identifier after the dash matches no
registered switch and no registered option the parse fails with
`UnknownOption`.  Concretely, `-9.5` against a numeric mandatory
positional is not accepted as a negative number: it fails with
`UnknownOption` and nothing is written. -/
theorem C7_dash_always_named :
    (∀ (P : Parser) (t : String) (rest : List String) (st : LoopState),
      firstCharIsDash t = true →
      findA P.flags (identOf t) = none →
      findA P.parserFunctions (identOf t) = none →
      runTokens P (t :: rest) st = .err .UnknownOption st.store) ∧
    (∀ (P : Parser) (t : String) (rest : List String) (st : LoopState),
      firstCharIsDash t = true →
      (∃ e σ2, runTokens P (t :: rest) st = .err e σ2) ∨
      (∃ ts2 σ2, runTokens P (t :: rest) st = runTokens P ts2 ⟨st.mand, st.opt, σ2⟩)) ∧
    (parseCommandLineArguments Pm95 ["prog", "-9.5"] store0 = (some .UnknownOption, store0)) := by
  refine ⟨runTokens_unknown, ?_, rfl⟩
  intro P t rest st h1
  cases hfl : findA P.flags (identOf t) with
  | some sw =>
    right
    exact ⟨rest, updateStore st.store sw.dest (negate (st.store sw.dest)),
      runTokens_flag P t rest st sw h1 hfl⟩
  | none =>
    cases hfn : findA P.parserFunctions (identOf t) with
    | none =>
      left
      exact ⟨.UnknownOption, st.store, runTokens_unknown P t rest st h1 hfl hfn⟩
    | some prm =>
      cases rest with
      | nil =>
        left
        exact ⟨.MissingValue, st.store, runTokens_option_missingValue P t st prm h1 hfl hfn⟩
      | cons v rest2 =>
        cases hcv : convert prm.conv v with
        | none =>
          left
          exact ⟨.ConversionError, st.store,
            runTokens_option_badValue P t v rest2 st prm h1 hfl hfn hcv⟩
        | some val =>
          right
          exact ⟨rest2, updateStore st.store prm.dest val,
            runTokens_option_value P t v rest2 st prm val h1 hfl hfn hcv⟩

/-- C7 witness: an unregistered identifier after the dash yields
`UnknownOption` with the store unchanged. -/
theorem C7_witness :
    runTokens emptyParser ["-z"] ⟨[], [], store0⟩ = .err .UnknownOption store0 :=
  C7_dash_always_named.1 emptyParser "-z" [] ⟨[], [], store0⟩ rfl rfl rfl

/-! ### Claim C8 -/

/-- C8: a failing parse stops at the first error condition and performs
no rollback.  Whenever `parseCommandLineArguments` fails, either the
error is `MissingMandatoryParameter`, the whole token list was consumed
cleanly, and the returned store is exactly the destinations written by
that consumption; or the token list splits into a cleanly consumed
prefix — whose writes are exactly the returned store — followed by a
remainder whose processing produces the reported error immediately,
writing nothing further.  Tokens after the error point are never
processed and destinations written before it remain written. -/
theorem C8_first_error_no_rollback :
    ∀ (P : Parser) (args : List String) (σ σ2 : Store) (e : ParseError),
      parseCommandLineArguments P args σ = (some e, σ2) →
      (e = .MissingMandatoryParameter ∧
        ∃ st1, runTokens P (args.drop 1)
            ⟨P.mandatoryParameters, P.optionalParameters, σ⟩ = .ok st1 ∧
          st1.store = σ2 ∧ st1.mand ≠ []) ∨
      (∃ ts1 ts2 st1, args.drop 1 = ts1 ++ ts2 ∧
        runTokens P ts1 ⟨P.mandatoryParameters, P.optionalParameters, σ⟩ = .ok st1 ∧
        st1.store = σ2 ∧ runTokens P ts2 st1 = .err e σ2) := by
  intro P args σ σ2 e h
  cases hres : runTokens P (args.drop 1) ⟨P.mandatoryParameters, P.optionalParameters, σ⟩ with
  | ok st =>
    left
    have hp := parse_of_ok P args σ st hres
    rw [hp] at h
    have h1 := congrArg Prod.fst h
    have h2 := congrArg Prod.snd h
    simp only at h1 h2
    by_cases hI : st.mand.isEmpty
    · rw [if_pos hI] at h1
      cases h1
    · rw [if_neg hI] at h1
      have he : e = .MissingMandatoryParameter := by
        injection h1 with h1e
        exact h1e.symm
      refine ⟨he, st, rfl, h2, ?_⟩
      intro hcontra
      exact hI (List.isEmpty_iff.mpr hcontra)
  | err e2 σ3 =>
    right
    have hp := parse_of_err P args σ e2 σ3 hres
    rw [hp] at h
    have h1 := congrArg Prod.fst h
    have h2 := congrArg Prod.snd h
    simp only at h1 h2
    have he : e2 = e := by
      injection h1
    subst he
    subst h2
    exact runTokens_err_decomp P (args.drop 1) _ e2 σ3 hres

/-- C8 witness: an unrecognized positional fails immediately with the
store unchanged, decomposing as an empty clean prefix followed by the
failing token. -/
theorem C8_witness :
    ((.UnrecognizedPositional : ParseError) = .MissingMandatoryParameter ∧
      ∃ st1, runTokens emptyParser (["prog", "a"].drop 1)
          ⟨emptyParser.mandatoryParameters, emptyParser.optionalParameters, store0⟩ = .ok st1 ∧
        st1.store = store0 ∧ st1.mand ≠ []) ∨
    (∃ ts1 ts2 st1, (["prog", "a"] : List String).drop 1 = ts1 ++ ts2 ∧
      runTokens emptyParser ts1
        ⟨emptyParser.mandatoryParameters, emptyParser.optionalParameters, store0⟩ = .ok st1 ∧
      st1.store = store0 ∧ runTokens emptyParser ts2 st1 = .err .UnrecognizedPositional store0) :=
  C8_first_error_no_rollback emptyParser ["prog", "a"] store0 store0 .UnrecognizedPositional rfl

/-! ### Claim C9 -/

/-- C9: the first usage line carries the `[options...]` marker (as its
final segment) precisely when at least one named option or switch is
registered; with both maps empty the line always ends in a space, so the
marker is omitted. -/
theorem C9_options_marker :
    ∀ (P : Parser) (name : String),
      (("[options...]" : String).data <:+ (usageFirstLine P name).data) ↔
        (P.parserFunctions ≠ [] ∨ P.flags ≠ []) := by
  intro P name
  have hcond : (!P.parserFunctions.isEmpty || !P.flags.isEmpty) = true ↔
      (P.parserFunctions ≠ [] ∨ P.flags ≠ []) := by
    simp [List.isEmpty_iff]
  by_cases hor : P.parserFunctions ≠ [] ∨ P.flags ≠ []
  · have hc : (!P.parserFunctions.isEmpty || !P.flags.isEmpty) = true := hcond.mpr hor
    have hline : usageFirstLine P name =
        ("usage: " ++ name ++ " " ++ mandChunk P.mandatoryParameters
          ++ optChunk P.optionalParameters) ++ "[options...]" := by
      unfold usageFirstLine
      rw [if_pos hc]
    constructor
    · intro _
      exact hor
    · intro _
      rw [hline, String.data_append]
      exact List.suffix_append _ _
  · have hc : ¬(!P.parserFunctions.isEmpty || !P.flags.isEmpty) = true := fun hcc =>
      hor (hcond.mp hcc)
    have hline : usageFirstLine P name =
        ("usage: " ++ name ++ " " ++ mandChunk P.mandatoryParameters
          ++ optChunk P.optionalParameters) ++ "" := by
      unfold usageFirstLine
      rw [if_neg hc]
    constructor
    · intro hsuf
      exfalso
      obtain ⟨l, hl⟩ := usageBase_endsSpace P name
      rw [hline, String.data_append] at hsuf
      rw [show ("" : String).data = [] from rfl, List.append_nil] at hsuf
      rw [hl] at hsuf
      obtain ⟨t, ht⟩ := hsuf
      have hm : ("[options...]" : String).data =
          ['[', 'o', 'p', 't', 'i', 'o', 'n', 's', '.', '.', '.'] ++ [']'] := rfl
      rw [hm] at ht
      have hlast :
          (t ++ (['[', 'o', 'p', 't', 'i', 'o', 'n', 's', '.', '.', '.'] ++ [']'])).getLast?
            = some ']' := by
        rw [← List.append_assoc]
        exact List.getLast?_concat _
      rw [ht, List.getLast?_concat] at hlast
      cases hlast
    · intro h
      exact absurd h hor

/-- C9 witness: with one registered switch the marker is present. -/
theorem C9_witness :
    ("[options...]" : String).data <:+ (usageFirstLine Psw "prog").data :=
  (C9_options_marker Psw "prog").mpr (Or.inr (by decide))

/-! ### Claim C10 -/

/-- C10: an empty token does not start with the dash prefix, so the parse
treats it as a positional: it is assigned to the next unfilled mandatory
slot, else the next unfilled optional slot (string slots store the empty
string verbatim; a numeric slot raises a conversion error), and when no
slot remains the parse fails with `UnrecognizedPositional`. -/
theorem C10_empty_token_positional :
    (∀ (P : Parser) (rest : List String) (st : LoopState),
      st.mand = [] → st.opt = [] →
      runTokens P ("" :: rest) st = .err .UnrecognizedPositional st.store) ∧
    (∀ (P : Parser) (rest : List String) (st : LoopState) (m : Parameter)
        (mrest : List Parameter),
      st.mand = m :: mrest → m.conv = .cStr →
      runTokens P ("" :: rest) st =
        runTokens P rest ⟨mrest, st.opt, updateStore st.store m.dest (.vStr "")⟩) ∧
    (∀ (P : Parser) (rest : List String) (st : LoopState) (o : Parameter)
        (orest : List Parameter),
      st.mand = [] → st.opt = o :: orest → o.conv = .cStr →
      runTokens P ("" :: rest) st =
        runTokens P rest ⟨[], orest, updateStore st.store o.dest (.vStr "")⟩) ∧
    (∀ (P : Parser) (rest : List String) (st : LoopState) (m : Parameter)
        (mrest : List Parameter),
      st.mand = m :: mrest → m.conv = .cInt →
      runTokens P ("" :: rest) st = .err .ConversionError st.store) ∧
    (parseCommandLineArguments emptyParser ["prog", ""] store0
      = (some .UnrecognizedPositional, store0)) := by
  refine ⟨?_, ?_, ?_, ?_, rfl⟩
  · intro P rest st h2 h3
    exact runTokens_noSlot P "" rest st rfl h2 h3
  · intro P rest st m mrest h2 hc
    exact runTokens_mand P "" rest st m mrest (.vStr "") rfl h2 (convert_cStr _ _ hc)
  · intro P rest st o orest h2 h3 hc
    exact runTokens_opt P "" rest st o orest (.vStr "") rfl h2 h3 (convert_cStr _ _ hc)
  · intro P rest st m mrest h2 hc
    refine runTokens_mand_bad P "" rest st m mrest rfl h2 ?_
    rw [hc]
    rfl

/-- C10 witness: with no positional slots, the empty token fails with
`UnrecognizedPositional` leaving the store unchanged. -/
theorem C10_witness :
    runTokens emptyParser [""] ⟨[], [], store0⟩ = .err .UnrecognizedPositional store0 :=
  C10_empty_token_positional.1 emptyParser [] ⟨[], [], store0⟩ rfl rfl
